import Mathlib

/-!
Verification of the h3-engine repository: a shallow embedding of

  * `src/converter/converter.py`   (adaptive H3 resolution planner, encoders),
  * `src/converter/predicates.py`  (hierarchical cell-set predicates),
  * `src/engine/h3_engine.py`      (DuckDB-backed DGGS query engine),

together with theorems settling the frozen claims about the spec.

Modelling conventions:

  * An H3 cell is a base-cell identifier plus an aperture-7 digit path; the
    resolution of a cell is the length of its path.  `h3_cell_to_parent`
    truncates the path, `h3_cell_to_children` enumerates all extensions.
  * Python floats (areas) are modelled as rationals; the frozen average-area
    lookup table of `converter.py` is embedded literally (scaled by 1000 to
    express the three decimal digits exactly).
  * External H3-library primitives (`latlng_to_cell`, polyfill,
    `grid_path_cells`, geodesic area, centroid) are fields of an `H3Kernel`
    parameter: the Python code treats them as opaque, and every theorem holds
    for every kernel.  A kernel value fixes the h3 library together with the
    containment mode passed to the polyfill.
  * Fallible Python code is modelled in `Except Unit`.
-/

namespace H3Spec

/-- An H3 cell identifier: base cell plus digit path (aperture-7 hierarchy).
The resolution of the cell is `path.length`. -/
structure Cell where
  base : Nat
  path : List (Fin 7)
deriving DecidableEq, Repr

/-- Resolution of a cell (`h3.get_resolution` / `resolution_of`). -/
def Cell.resolution (c : Cell) : Nat := c.path.length

/-- `h3_cell_to_parent(c, r)`: truncate the digit path to length `r`
(defined for `r ≤ resolution`; total here via `List.take`). -/
def cellToParent (c : Cell) (r : Nat) : Cell :=
  ⟨c.base, c.path.take r⟩

/-- All digit lists of length `n` (7^n of them). -/
def digitLists : Nat → List (List (Fin 7))
  | 0 => [[]]
  | n + 1 => (digitLists n).flatMap (fun ds => (List.finRange 7).map (fun d => ds ++ [d]))

/-- `h3_cell_to_children(c, r)`: all descendants of `c` at resolution `r`
(defined for `r ≥ resolution`). -/
def cellToChildren (c : Cell) (r : Nat) : List Cell :=
  (digitLists (r - c.path.length)).map (fun ds => ⟨c.base, c.path ++ ds⟩)

/-- One row of the `features` table, restricted to the columns the engine's
set operations and predicates read: `h3_resolution` and `h3_cells`. -/
structure Feature where
  res : Nat
  cells : List Cell
deriving DecidableEq, Repr

/-- Fold step for `MIN(h3_resolution), MAX(h3_resolution)`. -/
def rangeStep (p : Nat × Nat) (f : Feature) : Nat × Nat :=
  (min p.1 f.res, max p.2 f.res)

/-- `_get_resolution_range`: `SELECT MIN(h3_resolution), MAX(h3_resolution)`.
Returns `none` on an empty selection (SQL NULL aggregates). -/
def resRange : List Feature → Option (Nat × Nat)
  | [] => none
  | f :: t => some (t.foldl rangeStep (f.res, f.res))

/-- The maximal resolution `r_max(S)` of a selection (0 when empty). -/
def rmaxD (s : List Feature) : Nat :=
  match resRange s with
  | some p => p.2
  | none => 0

/-- All cells of a selection, in row order (`UNNEST(h3_cells)`). -/
def allCells (s : List Feature) : List Cell :=
  (s.map Feature.cells).flatten

/-- `H3Engine.union`: normalize a selection's cells to its finest resolution.
Rows at `max_res` are taken as-is, coarser rows are expanded via
`h3_cell_to_children`, and the result is de-duplicated (`SELECT DISTINCT`). -/
def union_e (s : List Feature) : List Cell :=
  match resRange s with
  | none => []
  | some (m, M) =>
    if m = M then
      (allCells s).dedup
    else
      (allCells (s.filter (fun f => f.res = M)) ++
        ((allCells (s.filter (fun f => f.res < M))).map
          (fun c => cellToChildren c M)).flatten).dedup

/-- Core of `H3Engine.intersection` once the fine/coarse sides are fixed:
keep the fine side's cells whose parent at `target` occurs among the coarse
side's parents at `target`, then normalize the kept cells to `finest`. -/
def interCore (target finest : Nat) (fine coarse : List Feature) : List Cell :=
  let coarseParents := ((allCells coarse).map (fun c => cellToParent c target)).dedup
  let raw := ((fine.map (fun f => f.cells.map (fun c => (c, f.res)))).flatten).filter
    (fun p => decide (cellToParent p.1 target ∈ coarseParents))
  ((raw.filter (fun p => p.2 = finest)).map Prod.fst ++
    ((raw.filter (fun p => decide (p.2 < finest))).map
      (fun p => cellToChildren p.1 finest)).flatten).dedup

/-- `H3Engine.intersection(a, b)`: join on the coarser resolution, keep the
finer side's matching cells, normalize to the finest resolution present.
The side with the larger `MAX(h3_resolution)` is the fine side; on a tie the
first argument is (`if max_a >= max_b: fine = a`). -/
def intersection_e (a b : List Feature) : List Cell :=
  match resRange a, resRange b with
  | some (ma, Ma), some (mb, Mb) =>
    if Mb ≤ Ma then interCore (min ma mb) (max Ma Mb) a b
    else interCore (min ma mb) (max Ma Mb) b a
  | _, _ => []

/-- `H3Engine.intersects(a, b)`: parents of all cells of both sides at the
common coarser resolution share an element.  Empty selections give `False`. -/
def intersects_e (a b : List Feature) : Bool :=
  match resRange a, resRange b with
  | some (ma, _), some (mb, _) =>
    let t := min ma mb
    let aP := ((allCells a).map (fun c => cellToParent c t)).dedup
    let bP := ((allCells b).map (fun c => cellToParent c t)).dedup
    aP.any (fun c => decide (c ∈ bP))
  | _, _ => false

/-- `H3Engine.within(a, b)`: every parent of `a`'s cells at the common coarser
resolution occurs among `b`'s parents.  Empty selections give `False`. -/
def within_e (a b : List Feature) : Bool :=
  match resRange a, resRange b with
  | some (ma, _), some (mb, _) =>
    let t := min ma mb
    let aP := ((allCells a).map (fun c => cellToParent c t)).dedup
    let bP := ((allCells b).map (fun c => cellToParent c t)).dedup
    aP.all (fun c => decide (c ∈ bP))
  | _, _ => false

/-- `H3Engine.contains(a, b)`: literally `return self.within(b, a)`. -/
def contains_e (a b : List Feature) : Bool := within_e b a

/-! ## Converter: adaptive resolution planner and encoders
(`src/converter/converter.py`) -/

/-- The frozen `H3_AVG_HEXAGON_AREA_M2` lookup table (average hexagon area in
m² per resolution), embedded literally; the three decimal digits of each float
literal are expressed exactly as a rational with denominator 1000.  Python
raises `KeyError` above 15; resolutions above 15 never occur. -/
def h3AvgHexagonAreaM2 : Nat → ℚ
  | 0 => 4357449416078392 / 1000
  | 1 => 609788441794134 / 1000
  | 2 => 86801780398997 / 1000
  | 3 => 12393434655088 / 1000
  | 4 => 1770347654491 / 1000
  | 5 => 252903858182 / 1000
  | 6 => 36129062164 / 1000
  | 7 => 5161293360 / 1000
  | 8 => 737327598 / 1000
  | 9 => 105332513 / 1000
  | 10 => 15047502 / 1000
  | 11 => 2149643 / 1000
  | 12 => 307092 / 1000
  | 13 => 43870 / 1000
  | 14 => 6267 / 1000
  | 15 => 895 / 1000
  | _ => 0

/-- The `for res in range(min_resolution, max_resolution + 1)` loop of
`_estimate_resolution_from_area`: return the first `r` with
`table[r] <= target_cell_area`, else `max_resolution`.  `fuel` is the number
of loop iterations left. -/
def scanRes (tgt : ℚ) (rmax : Nat) : Nat → Nat → Nat
  | _, 0 => rmax
  | r, fuel + 1 => if h3AvgHexagonAreaM2 r ≤ tgt then r else scanRes tgt rmax (r + 1) fuel

/-- `_estimate_resolution_from_area(area, target_cells, min_res, max_res)`. -/
def estimateResolutionFromArea (A : ℚ) (T rmin rmax : Nat) : Nat :=
  scanRes (A / (T : ℚ)) rmax rmin (rmax + 1 - rmin)

/-- A polygon: exterior ring plus interior rings, as `(lng, lat)` vertex
lists (shapely order; WGS84 throughout, as in the batch functions which
reproject once up front). -/
structure PolyG where
  exterior : List (ℚ × ℚ)
  holes : List (List (ℚ × ℚ))
deriving DecidableEq, Repr

/-- A `Polygon` or a `MultiPolygon` argument. -/
inductive PolyInput
  | single (p : PolyG)
  | multi (ps : List PolyG)
deriving DecidableEq, Repr

/-- The external H3/pyproj primitives the converter calls.  Every theorem
below is proved for an arbitrary kernel; a kernel value fixes the h3 library
build together with the containment mode handed to the polyfill. -/
structure H3Kernel where
  latlngToCell : ℚ → ℚ → Nat → Cell
  gridPathCells : Cell → Cell → Except Unit (List Cell)
  polyfill : PolyG → Nat → List Cell
  signedArea : PolyInput → ℚ
  centroid : PolyInput → ℚ × ℚ

/-- `_calculate_geodesic_area_m2`: `abs(area)` from the WGS84 geodesic. -/
def geodesicAreaM2 (k : H3Kernel) (g : PolyInput) : ℚ := |k.signedArea g|

/-- The validation encoding of `calculate_optimal_resolution` step 3: polyfill
a polygon directly, or union the per-part polyfills of a multipolygon into a
set (Python `set.update`). -/
def polyInputCells (k : H3Kernel) (g : PolyInput) (r : Nat) : List Cell :=
  match g with
  | .single p => (k.polyfill p r).dedup
  | .multi ps => ((ps.map (fun p => k.polyfill p r)).flatten).dedup

/-- Steps 1–2 of `calculate_optimal_resolution`: geodesic area, then the
table-based resolution estimate. -/
def plannerEst (k : H3Kernel) (g : PolyInput) (T rmin rmax : Nat) : Nat :=
  estimateResolutionFromArea (geodesicAreaM2 k g) T rmin rmax

/-- Step 3 of `calculate_optimal_resolution`: the validation cell count
`num_cells` at the estimated resolution. -/
def plannerCount (k : H3Kernel) (g : PolyInput) (T rmin rmax : Nat) : Nat :=
  (polyInputCells k g (plannerEst k g T rmin rmax)).length

/-- `calculate_optimal_resolution(polygon, target_cells, min_res, max_res)`,
step 4 exactly as ordered in the source: first the correction branch
(`num_cells < target_cells and estimated_resolution < max_resolution` returns
`estimated_resolution + 1`), then the `num_cells == 0` sentinel branch
returning `None`, else the estimate. -/
def calculateOptimalResolution (k : H3Kernel) (g : PolyInput) (T rmin rmax : Nat) :
    Option Nat :=
  if plannerCount k g T rmin rmax < T ∧ plannerEst k g T rmin rmax < rmax then
    some (plannerEst k g T rmin rmax + 1)
  else if plannerCount k g T rmin rmax = 0 then none
  else some (plannerEst k g T rmin rmax)

/-- `point_to_h3`: h3 takes `(lat, lng)`, shapely stores `(x, y) = (lng, lat)`. -/
def pointToH3 (k : H3Kernel) (lng lat : ℚ) (r : Nat) : Cell :=
  k.latlngToCell lat lng r

/-- `line_to_h3`: per consecutive vertex pair, cell-encode the endpoints and
take `grid_path_cells`; on failure fall back to the two endpoint cells. -/
def lineToH3 (k : H3Kernel) (coords : List (ℚ × ℚ)) (r : Nat) : List Cell :=
  ((coords.zip coords.tail).foldl
    (fun acc q =>
      let cs := k.latlngToCell q.1.2 q.1.1 r
      let ce := k.latlngToCell q.2.2 q.2.1 r
      match k.gridPathCells cs ce with
      | .ok path => acc ++ path
      | .error _ => acc ++ [cs, ce]) []).dedup

/-- `polygon_to_h3` on a single `Polygon`: polyfill, with centroid fallback
when the polyfill is empty. -/
def polygonToH3Single (k : H3Kernel) (p : PolyG) (r : Nat) : List Cell :=
  let cs := (k.polyfill p r).dedup
  if cs.isEmpty then
    [k.latlngToCell (k.centroid (.single p)).2 (k.centroid (.single p)).1 r]
  else cs

/-- `polygon_to_h3`: a `MultiPolygon` is processed part by part (each part
with its own centroid fallback), with a whole-geometry centroid fallback when
no part produced a cell. -/
def polygonToH3 (k : H3Kernel) (g : PolyInput) (r : Nat) : List Cell :=
  match g with
  | .single p => polygonToH3Single k p r
  | .multi ps =>
    let all := ((ps.map (fun p => polygonToH3Single k p r)).flatten).dedup
    if all.isEmpty then
      [k.latlngToCell (k.centroid g).2 (k.centroid g).1 r]
    else all

/-- `polygon_to_h3_adaptive`: plan the resolution; on the `None` sentinel,
emit the centroid cell at `max_resolution`, else encode at the planned
resolution. -/
def polygonToH3Adaptive (k : H3Kernel) (g : PolyInput) (T rmin rmax : Nat) :
    List Cell × Nat :=
  match calculateOptimalResolution k g T rmin rmax with
  | none => ([k.latlngToCell (k.centroid g).2 (k.centroid g).1 rmax], rmax)
  | some r => (polygonToH3 k g r, r)

/-- A shapely geometry value, as dispatched on by the converter. -/
inductive Geometry
  | point (lng lat : ℚ)
  | lineString (coords : List (ℚ × ℚ))
  | polygon (p : PolyG)
  | multiPoint (ps : List (ℚ × ℚ))
  | multiLineString (ls : List (List (ℚ × ℚ)))
  | multiPolygon (ps : List PolyG)
deriving DecidableEq, Repr

/-- `convert_geometry_to_h3`: dispatch on the geometry variant; multi-variants
union their parts' cell sets (each `Polygon` part via `polygon_to_h3`). -/
def convertGeometryToH3 (k : H3Kernel) : Geometry → Nat → List Cell
  | .point lng lat, r => [pointToH3 k lng lat r]
  | .lineString cs, r => lineToH3 k cs r
  | .polygon p, r => polygonToH3 k (.single p) r
  | .multiPoint ps, r => ((ps.map (fun q => [pointToH3 k q.1 q.2 r])).flatten).dedup
  | .multiLineString ls, r => ((ls.map (fun l => lineToH3 k l r)).flatten).dedup
  | .multiPolygon ps, r => ((ps.map (fun p => polygonToH3 k (.single p) r)).flatten).dedup

/-- The `isinstance(geom, (Polygon, MultiPolygon))` test of the batch loops. -/
def Geometry.isPolygonal : Geometry → Bool
  | .polygon _ => true
  | .multiPolygon _ => true
  | _ => false

/-- `convert_geodataframe_to_h3_adaptive`: polygonal rows get a per-row
adaptive resolution; all other rows are encoded at `max_resolution`, which is
also the resolution recorded for them.  Returns the cells column and the
resolutions column. -/
def convertGeodataframeToH3Adaptive (k : H3Kernel) (gdf : List Geometry)
    (T rmin rmax : Nat) : List (List Cell) × List Nat :=
  let rows := gdf.map (fun g =>
    match g with
    | .polygon p => polygonToH3Adaptive k (.single p) T rmin rmax
    | .multiPolygon ps => polygonToH3Adaptive k (.multi ps) T rmin rmax
    | g => (convertGeometryToH3 k g rmax, rmax))
  (rows.map Prod.fst, rows.map Prod.snd)

/-! ## Hierarchical predicate library (`src/converter/predicates.py`)

The library works on Python sets of cell-id strings, which may hold invalid
identifiers; h3 calls on an invalid identifier raise.  A set is modelled as a
list (iteration order; the head is the `next(iter(...))` representative) of
`H3Id` values, and raising code lives in `Except Unit`. -/

/-- A cell-id string handed to the predicate library: either a valid H3 cell
or an invalid identifier (e.g. test data). -/
inductive H3Id
  | ok (c : Cell)
  | bad (tag : Nat)
deriving DecidableEq, Repr

/-- `h3.get_resolution`: raises on an invalid identifier. -/
def getResolutionE : H3Id → Except Unit Nat
  | .ok c => .ok c.path.length
  | .bad _ => .error ()

/-- `h3.cell_to_parent(cell, r)`: raises on an invalid identifier and on a
resolution-domain violation (`r` finer than the cell's own resolution). -/
def cellToParentE (t : Nat) : H3Id → Except Unit H3Id
  | .ok c => if t ≤ c.path.length then .ok (.ok (cellToParent c t)) else .error ()
  | .bad _ => .error ()

/-- `_normalize_to_coarser_resolution(cells_a, cells_b)`:

  * either set empty: both returned unchanged;
  * reading either representative's resolution raises: normalization is
    skipped wholesale and both sets are returned unchanged (the `except`
    branch);
  * equal resolutions: both returned unchanged;
  * otherwise the set whose representative is finer is reparented to the
    coarser resolution — an invalid identifier inside that set makes the
    (uncaught) `cell_to_parent` call raise. -/
def normalizeToCoarser (a b : List H3Id) : Except Unit (List H3Id × List H3Id) :=
  match a, b with
  | [], _ => .ok (a, b)
  | _, [] => .ok (a, b)
  | x :: _, y :: _ =>
    match getResolutionE x, getResolutionE y with
    | .ok ra, .ok rb =>
      if ra = rb then .ok (a, b)
      else
        let t := min ra rb
        do
          let a2 ← if t < ra then a.mapM (cellToParentE t) else pure a
          let b2 ← if t < rb then b.mapM (cellToParentE t) else pure b
          pure (a2, b2)
    | _, _ => .ok (a, b)

/-- `predicates.intersects`: nonempty intersection after normalization. -/
def pIntersects (a b : List H3Id) : Except Unit Bool :=
  match normalizeToCoarser a b with
  | .error e => .error e
  | .ok (na, nb) => .ok (na.any (fun c => decide (c ∈ nb)))

/-- `predicates.within`: subset after normalization (`issubset`). -/
def pWithin (a b : List H3Id) : Except Unit Bool :=
  match normalizeToCoarser a b with
  | .error e => .error e
  | .ok (na, nb) => .ok (na.all (fun c => decide (c ∈ nb)))

/-- `predicates.contains`: `norm_b.issubset(norm_a)` after normalizing
`(cells_a, cells_b)` in that order. -/
def pContains (a b : List H3Id) : Except Unit Bool :=
  match normalizeToCoarser a b with
  | .error e => .error e
  | .ok (na, nb) => .ok (nb.all (fun c => decide (c ∈ na)))

/-- `predicates.touches`: not intersecting, and some `grid_disk(·, 1)`
neighbour of a cell of `A` (invalid cells skipped by the `try`/`continue`
loop), minus `A` itself, lies in `B`.  `gd` is the library's `grid_disk` at
`k = 1`. -/
def pTouches (gd : Cell → List Cell) (a b : List H3Id) : Except Unit Bool :=
  match pIntersects a b with
  | .error e => .error e
  | .ok true => .ok false
  | .ok false =>
    match normalizeToCoarser a b with
    | .error e => .error e
    | .ok (na, nb) =>
      let nbrs := na.foldl
        (fun acc x =>
          match x with
          | .ok c => acc ++ (gd c).map H3Id.ok
          | .bad _ => acc) []
      let nbrs2 := nbrs.filter (fun x => decide (x ∉ na))
      .ok (nbrs2.any (fun x => decide (x ∈ nb)))

/-- Whether the `next(iter(...))` representative of a cell set — its head —
is an invalid identifier. -/
def headInvalid : List H3Id → Bool
  | .bad _ :: _ => true
  | _ => false

/-! ## Ephemeral-view discipline of `H3Engine` (`src/engine/h3_engine.py`)

Each engine operation may receive a SQL `WHERE` string (no view involved) or
a `DuckDBPyRelation`, which `_to_table_expr` registers on the connection as a
temporary view named by the relation's Python `id()`.  The registry of views
on the connection is modelled as the list of those ids.  An exception raised
by the inner query is modelled by the flag `qfail`; `try`/`finally` cleanup
in the source runs on both paths. -/

/-- The registered ephemeral views of the connection, by relation id
(id `n` stands for the view named `_h3_tmp_` followed by `n`). -/
abbrev ViewState := List Nat

/-- A `FeatureSet` argument: SQL `WHERE` string (modelled as a row predicate
over the `features` table) or a `DuckDBPyRelation` with its Python id. -/
inductive FSArg
  | filt (p : Feature → Bool)
  | rel (id : Nat) (rows : List Feature)

/-- The feature rows an argument denotes. -/
def argTable (features : List Feature) : FSArg → List Feature
  | .filt p => features.filter p
  | .rel _ rows => rows

/-- The relation ids an argument contributes views for. -/
def argIds : FSArg → List Nat
  | .filt _ => []
  | .rel i _ => [i]

/-- `_to_table_expr`'s effect on the connection: register a view for a
relation argument; a string argument becomes an inline subquery. -/
def registerArg (st : ViewState) : FSArg → ViewState
  | .filt _ => st
  | .rel i _ => st ++ [i]

/-- `_cleanup_views`' effect for one argument: unregister the relation's
view (a no-op for string arguments). -/
def cleanupArg (st : ViewState) : FSArg → ViewState
  | .filt _ => st
  | .rel i _ => st.filter (fun n => n ≠ i)

/-- `H3Engine.intersects` with its view effects: both arguments are
registered, the predicate body runs (`qfail` models an inner exception), and
the `finally` block unregisters both views on every exit path. -/
def intersectsS (features : List Feature) (a b : FSArg) (qfail : Bool)
    (st : ViewState) : Except Unit Bool × ViewState :=
  let st2 := registerArg (registerArg st a) b
  let r : Except Unit Bool :=
    if qfail then .error ()
    else .ok (intersects_e (argTable features a) (argTable features b))
  (r, cleanupArg (cleanupArg st2 a) b)

/-- `H3Engine.within` with its view effects (same `try`/`finally` shape). -/
def withinS (features : List Feature) (a b : FSArg) (qfail : Bool)
    (st : ViewState) : Except Unit Bool × ViewState :=
  let st2 := registerArg (registerArg st a) b
  let r : Except Unit Bool :=
    if qfail then .error ()
    else .ok (within_e (argTable features a) (argTable features b))
  (r, cleanupArg (cleanupArg st2 a) b)

/-- `H3Engine.contains` with its view effects: delegates to `within(b, a)`. -/
def containsS (features : List Feature) (a b : FSArg) (qfail : Bool)
    (st : ViewState) : Except Unit Bool × ViewState :=
  withinS features b a qfail st

/-- The feature-selection branch of `H3Engine.area` with its view effects:
register, sum `h3_cell_area` over the distinct unnested cells, unregister in
the `finally` block.  (The cell-relation branch of `area` has the identical
register/`try`/`finally`/unregister shape.) -/
def areaS (cellArea : Cell → ℚ) (features : List Feature) (x : FSArg)
    (qfail : Bool) (st : ViewState) : Except Unit ℚ × ViewState :=
  let st1 := registerArg st x
  let r : Except Unit ℚ :=
    if qfail then .error ()
    else .ok (((allCells (argTable features x)).dedup.map cellArea).sum)
  (r, cleanupArg st1 x)

/-- `H3Engine.union` with its view effects: the source registers a view for a
relation argument and returns a lazy relation without ever unregistering it
(there is no `try`/`finally` and no `_cleanup_views` call). -/
def unionS (features : List Feature) (x : FSArg) (qfail : Bool)
    (st : ViewState) : Except Unit (List Cell) × ViewState :=
  let st1 := registerArg st x
  let r : Except Unit (List Cell) :=
    if qfail then .error ()
    else .ok (union_e (argTable features x))
  (r, st1)

/-- `H3Engine.intersection` with its view effects: registers views for both
relation arguments and never unregisters them. -/
def intersectionS (features : List Feature) (a b : FSArg) (qfail : Bool)
    (st : ViewState) : Except Unit (List Cell) × ViewState :=
  let st2 := registerArg (registerArg st a) b
  let r : Except Unit (List Cell) :=
    if qfail then .error ()
    else .ok (intersection_e (argTable features a) (argTable features b))
  (r, st2)

/-! ## Relation values returned by `union`/`intersection`

`union`/`intersection` return a `DuckDBPyRelation` with a single `cell`
column.  Feeding such a relation back into `union` registers it as a view
and runs `SELECT MIN(h3_resolution), MAX(h3_resolution)` against it, which
fails with a binder error: the relation has no `h3_resolution` column. -/

/-- A relation an engine call can receive: the `features` table shape, or a
single-`cell`-column relation produced by `union`/`intersection`. -/
inductive Rel
  | featureTable (rows : List Feature)
  | cellColumn (cells : List Cell)
deriving DecidableEq, Repr

/-- `_get_resolution_range` against a registered relation: on a cell-column
relation the query references the missing `h3_resolution` column and raises. -/
def getResolutionRangeR : Rel → Except Unit (Option (Nat × Nat))
  | .featureTable rows => .ok (resRange rows)
  | .cellColumn _ => .error ()

/-- `H3Engine.union` on a relation argument, returning the cell relation: the
resolution-range probe runs first, so a cell-column argument raises. -/
def unionR (r : Rel) : Except Unit Rel :=
  match r with
  | .featureTable rows =>
    match getResolutionRangeR r with
    | .error e => .error e
    | .ok _ => .ok (.cellColumn (union_e rows))
  | .cellColumn _ =>
    match getResolutionRangeR r with
    | .error e => .error e
    | .ok _ => .ok (.cellColumn [])

/-! ## Concrete values used by counterexamples and witnesses -/

/-- A resolution-0 cell on base cell 0. -/
def exP0 : Cell := ⟨0, []⟩

/-- Selection with one resolution-0 row on base 0 and one resolution-1 row
descending from base 1. -/
def exA3 : List Feature := [⟨0, [exP0]⟩, ⟨1, [⟨1, [0]⟩]⟩]

/-- Selection with a single resolution-1 row: one child of `exP0`. -/
def exB3 : List Feature := [⟨1, [⟨0, [0]⟩]⟩]

/-- A resolution-6 cell. -/
def exC6 : Cell := ⟨0, [0, 0, 0, 0, 0, 0]⟩

/-- Two resolution-8 descendants of `exC6`. -/
def exD1 : Cell := ⟨0, [0, 0, 0, 0, 0, 0, 0, 0]⟩

/-- Second resolution-8 descendant of `exC6`. -/
def exD2 : Cell := ⟨0, [0, 0, 0, 0, 0, 0, 0, 1]⟩

/-- The mixed-resolution selection of spec scenario 5: one feature holding
`exC6` at resolution 6 and one feature holding two of its resolution-8
descendants. -/
def exS49 : List Feature := [⟨6, [exC6]⟩, ⟨8, [exD1, exD2]⟩]

/-- A single-row selection used for the `union`-composition example. -/
def exS0 : List Feature := [⟨2, [⟨0, [0, 0]⟩]⟩]

/-- A kernel whose polyfill always returns no cells, over a geometry of
geodesic area 10^10 m² (so the planner's table estimate lands at
resolution 5 for a target of 10 cells within bounds 5..12). -/
def exK0 : H3Kernel :=
  ⟨fun _ _ _ => ⟨0, []⟩, fun _ _ => .ok [], fun _ _ => [],
    fun _ => 10000000000, fun _ => (0, 0)⟩

/-- A kernel whose polyfill always returns three distinct cells, same
geometry area as `exK0`. -/
def exK1 : H3Kernel :=
  ⟨fun _ _ _ => ⟨0, []⟩, fun _ _ => .ok [], fun _ _ => [⟨0, []⟩, ⟨1, []⟩, ⟨2, []⟩],
    fun _ => 10000000000, fun _ => (0, 0)⟩

/-- A concrete polygon input (the polyfills above ignore the vertex data). -/
def exG0 : PolyInput := .single ⟨[], []⟩

/-! ## Helper lemmas -/

theorem mem_allCells {s : List Feature} {c : Cell} :
    c ∈ allCells s ↔ ∃ f ∈ s, c ∈ f.cells := by
  simp [allCells]

theorem foldl_rangeStep_le (t : List Feature) (p : Nat × Nat) :
    (t.foldl rangeStep p).1 ≤ p.1 ∧ p.2 ≤ (t.foldl rangeStep p).2 := by
  induction t generalizing p with
  | nil => exact ⟨le_refl _, le_refl _⟩
  | cons f t ih =>
    refine ⟨le_trans (ih (rangeStep p f)).1 (Nat.min_le_left _ _),
      le_trans (Nat.le_max_left _ _) (ih (rangeStep p f)).2⟩

theorem foldl_rangeStep_mem (t : List Feature) (p : Nat × Nat) :
    ∀ f ∈ t, (t.foldl rangeStep p).1 ≤ f.res ∧ f.res ≤ (t.foldl rangeStep p).2 := by
  induction t generalizing p with
  | nil => intro f hf; cases hf
  | cons g t ih =>
    intro f hf
    rcases List.mem_cons.mp hf with h | h
    · subst h
      exact ⟨le_trans (foldl_rangeStep_le t (rangeStep p f)).1 (Nat.min_le_right _ _),
        le_trans (Nat.le_max_right _ _) (foldl_rangeStep_le t (rangeStep p f)).2⟩
    · exact ih (rangeStep p g) f h

theorem resRange_bounds {s : List Feature} {m M : Nat} (h : resRange s = some (m, M)) :
    ∀ f ∈ s, m ≤ f.res ∧ f.res ≤ M := by
  cases s with
  | nil => simp [resRange] at h
  | cons g t =>
    simp only [resRange, Option.some.injEq] at h
    intro f hf
    rcases List.mem_cons.mp hf with h1 | h1
    · subst h1
      have h2 := foldl_rangeStep_le t (f.res, f.res)
      rw [h] at h2
      exact h2
    · have h2 := foldl_rangeStep_mem t (g.res, g.res) f h1
      rw [h] at h2
      exact h2

theorem foldl_rangeStep_uniform (t : List Feature) (r : Nat)
    (h : ∀ f ∈ t, f.res = r) : t.foldl rangeStep (r, r) = (r, r) := by
  induction t with
  | nil => rfl
  | cons g t ih =>
    have hg : g.res = r := h g (List.mem_cons_self g t)
    have hs : rangeStep (r, r) g = (r, r) := by simp [rangeStep, hg]
    rw [List.foldl_cons, hs]
    exact ih (fun f hf => h f (List.mem_cons_of_mem g hf))

theorem resRange_uniform {s : List Feature} {r : Nat} (hne : s ≠ [])
    (h : ∀ f ∈ s, f.res = r) : resRange s = some (r, r) := by
  cases s with
  | nil => exact absurd rfl hne
  | cons g t =>
    have hg : g.res = r := h g (List.mem_cons_self g t)
    simp only [resRange, hg]
    rw [foldl_rangeStep_uniform t r (fun f hf => h f (List.mem_cons_of_mem g hf))]

theorem resRange_eq_none {s : List Feature} : resRange s = none ↔ s = [] := by
  cases s <;> simp [resRange]

theorem cellToParent_of_le {c : Cell} {r : Nat} (h : c.path.length ≤ r) :
    cellToParent c r = c := by
  cases c with
  | mk b p => simp [cellToParent, List.take_of_length_le h]

theorem scanRes_succ_ge (tgt : ℚ) (rmax : Nat) :
    ∀ fuel r, r + fuel = rmax + 1 → r ≤ scanRes tgt rmax r fuel + 1 := by
  intro fuel
  induction fuel with
  | zero => intro r h; simp only [scanRes]; omega
  | succ n ih =>
    intro r h
    simp only [scanRes]
    by_cases hc : h3AvgHexagonAreaM2 r ≤ tgt
    · simp [hc]
    · simp only [hc, if_false]
      have := ih (r + 1) (by omega)
      omega

theorem scanRes_mono (rmax : Nat) {tgt1 tgt2 : ℚ} (h : tgt2 ≤ tgt1) :
    ∀ fuel r, r + fuel = rmax + 1 →
      scanRes tgt1 rmax r fuel ≤ scanRes tgt2 rmax r fuel := by
  intro fuel
  induction fuel with
  | zero => intro r _; simp [scanRes]
  | succ n ih =>
    intro r hr
    simp only [scanRes]
    by_cases h2 : h3AvgHexagonAreaM2 r ≤ tgt2
    · have h1 : h3AvgHexagonAreaM2 r ≤ tgt1 := le_trans h2 h
      simp [h1, h2]
    · by_cases h1 : h3AvgHexagonAreaM2 r ≤ tgt1
      · simp only [h1, h2, if_true, if_false]
        have := scanRes_succ_ge tgt2 rmax n (r + 1) (by omega)
        omega
      · simp only [h1, h2, if_false]
        exact ih (r + 1) (by omega)

theorem estimateResolutionFromArea_mono {A : ℚ} (hA : 0 ≤ A) {T1 T2 rmin rmax : Nat}
    (h0 : 0 < T1) (h12 : T1 ≤ T2) (hmm : rmin ≤ rmax) :
    estimateResolutionFromArea A T1 rmin rmax ≤ estimateResolutionFromArea A T2 rmin rmax := by
  have ht : (A / (T2 : ℚ)) ≤ A / (T1 : ℚ) := by
    apply div_le_div_of_nonneg_left hA
    · exact_mod_cast h0
    · exact_mod_cast h12
  exact scanRes_mono rmax ht (rmax + 1 - rmin) rmin (by omega)

theorem scanRes_found {tgt : ℚ} {rmax r : Nat} (h : h3AvgHexagonAreaM2 r ≤ tgt)
    (fuel : Nat) : scanRes tgt rmax r (fuel + 1) = r := by
  simp [scanRes, h]

theorem exK0_plannerEst : plannerEst exK0 exG0 10 5 12 = 5 := by
  have h : h3AvgHexagonAreaM2 5 ≤ geodesicAreaM2 exK0 exG0 / ((10 : Nat) : ℚ) := by
    norm_num [h3AvgHexagonAreaM2, geodesicAreaM2, exK0]
  have e : plannerEst exK0 exG0 10 5 12 =
      scanRes (geodesicAreaM2 exK0 exG0 / ((10 : Nat) : ℚ)) 12 5 (7 + 1) := rfl
  rw [e, scanRes_found h 7]

theorem exK0_plannerCount : plannerCount exK0 exG0 10 5 12 = 0 := by
  unfold plannerCount
  rw [exK0_plannerEst]
  decide

theorem exK1_plannerEst1 : plannerEst exK1 exG0 1 5 12 = 5 := by
  have h : h3AvgHexagonAreaM2 5 ≤ geodesicAreaM2 exK1 exG0 / ((1 : Nat) : ℚ) := by
    norm_num [h3AvgHexagonAreaM2, geodesicAreaM2, exK1]
  have e : plannerEst exK1 exG0 1 5 12 =
      scanRes (geodesicAreaM2 exK1 exG0 / ((1 : Nat) : ℚ)) 12 5 (7 + 1) := rfl
  rw [e, scanRes_found h 7]

theorem exK1_plannerEst2 : plannerEst exK1 exG0 2 5 12 = 5 := by
  have h : h3AvgHexagonAreaM2 5 ≤ geodesicAreaM2 exK1 exG0 / ((2 : Nat) : ℚ) := by
    norm_num [h3AvgHexagonAreaM2, geodesicAreaM2, exK1]
  have e : plannerEst exK1 exG0 2 5 12 =
      scanRes (geodesicAreaM2 exK1 exG0 / ((2 : Nat) : ℚ)) 12 5 (7 + 1) := rfl
  rw [e, scanRes_found h 7]

theorem exK1_calcOpt1 : calculateOptimalResolution exK1 exG0 1 5 12 = some 5 := by
  have hc : plannerCount exK1 exG0 1 5 12 = 3 := by
    unfold plannerCount
    rw [exK1_plannerEst1]
    decide
  unfold calculateOptimalResolution
  rw [hc, exK1_plannerEst1]
  norm_num

theorem exK1_calcOpt2 : calculateOptimalResolution exK1 exG0 2 5 12 = some 5 := by
  have hc : plannerCount exK1 exG0 2 5 12 = 3 := by
    unfold plannerCount
    rw [exK1_plannerEst2]
    decide
  unfold calculateOptimalResolution
  rw [hc, exK1_plannerEst2]
  norm_num

theorem union_e_nodup (s : List Feature) : (union_e s).Nodup := by
  unfold union_e
  cases h : resRange s with
  | none => exact List.nodup_nil
  | some p =>
    obtain ⟨m, M⟩ := p
    by_cases hmM : m = M <;> simp [hmM, List.nodup_dedup]

theorem union_e_single (r : Nat) (cs : List Cell) : union_e [⟨r, cs⟩] = cs.dedup := by
  simp [union_e, resRange, allCells]

theorem filter_ne_of_not_mem {st : ViewState} {i : Nat} (h : i ∉ st) :
    st.filter (fun n => n ≠ i) = st := by
  apply List.filter_eq_self.mpr
  intro n hn
  exact decide_eq_true (fun he => h (he ▸ hn))

theorem cleanup_register (st : ViewState) (a : FSArg)
    (h : ∀ i ∈ argIds a, i ∉ st) :
    cleanupArg (registerArg st a) a = st := by
  cases a with
  | filt p => rfl
  | rel i rows =>
    have hi : i ∉ st := h i (by simp [argIds])
    simp only [registerArg, cleanupArg, List.filter_append, filter_ne_of_not_mem hi]
    simp

theorem cleanup_register2 (st : ViewState) (a b : FSArg)
    (ha : ∀ i ∈ argIds a, i ∉ st) (hb : ∀ i ∈ argIds b, i ∉ st)
    (hab : ∀ i ∈ argIds a, i ∉ argIds b) :
    cleanupArg (cleanupArg (registerArg (registerArg st a) b) a) b = st := by
  cases a with
  | filt p =>
    simp only [registerArg, cleanupArg]
    exact cleanup_register st b hb
  | rel i rows =>
    cases b with
    | filt q =>
      simp only [registerArg, cleanupArg]
      exact cleanup_register st (.rel i rows) ha
    | rel j rowsb =>
      have hi : i ∉ st := ha i (by simp [argIds])
      have hj : j ∉ st := hb j (by simp [argIds])
      have hij : i ≠ j := by
        intro he
        exact hab i (by simp [argIds]) (by simp [argIds, he])
      simp only [registerArg, cleanupArg, List.filter_append, filter_ne_of_not_mem hi]
      simp [hij, Ne.symm hij, filter_ne_of_not_mem hj]
      intro a hax he
      exact hj (he ▸ hax)

theorem normalizeToCoarser_swap (a b : List H3Id) :
    normalizeToCoarser b a = (normalizeToCoarser a b).map (fun p => (p.2, p.1)) := by
  cases a with
  | nil => cases b with | nil => rfl | cons y bs => rfl
  | cons x as =>
    cases b with
    | nil => rfl
    | cons y bs =>
      simp only [normalizeToCoarser]
      cases hx : getResolutionE x with
      | error e => cases hy : getResolutionE y with
        | error e2 => rfl
        | ok rb => rfl
      | ok ra =>
        cases hy : getResolutionE y with
        | error e2 => rfl
        | ok rb =>
          by_cases hr : ra = rb
          · subst hr
            simp [Except.map]
          · have hr2 : ¬ rb = ra := fun h => hr h.symm
            simp only [hr, hr2, if_false]
            rw [Nat.min_comm rb ra]
            rcases Nat.lt_or_ge ra rb with hlt | hge
            · have h1 : ¬ min ra rb < ra := by omega
              have h2 : min ra rb < rb := by omega
              simp only [h1, h2, if_true, if_false]
              cases hm : (y :: bs).mapM (cellToParentE (min ra rb)) <;> rfl
            · have hlt2 : rb < ra := by omega
              have h1 : min ra rb < ra := by omega
              have h2 : ¬ min ra rb < rb := by omega
              simp only [h1, h2, if_true, if_false]
              cases hm : (x :: as).mapM (cellToParentE (min ra rb)) <;> rfl

theorem normalizeToCoarser_headInvalid {a b : List H3Id}
    (h : headInvalid a = true ∨ headInvalid b = true) :
    normalizeToCoarser a b = .ok (a, b) := by
  cases a with
  | nil => cases b with | nil => rfl | cons y bs => rfl
  | cons x as =>
    cases b with
    | nil => rfl
    | cons y bs =>
      cases x with
      | bad t =>
        cases y with
        | bad u => rfl
        | ok c => rfl
      | ok c =>
        cases y with
        | bad u => rfl
        | ok d => simp [headInvalid] at h

theorem rmaxD_of_range {S : List Feature} {m M : Nat} (h : resRange S = some (m, M)) :
    rmaxD S = M := by
  unfold rmaxD
  rw [h]

theorem union_e_of_range_same {S : List Feature} {M : Nat}
    (h : resRange S = some (M, M)) : union_e S = (allCells S).dedup := by
  unfold union_e
  rw [h]
  simp

theorem union_e_of_range_mixed {S : List Feature} {m M : Nat}
    (h : resRange S = some (m, M)) (hmM : m ≠ M) :
    union_e S = (allCells (S.filter (fun f => f.res = M)) ++
      ((allCells (S.filter (fun f => f.res < M))).map
        (fun c => cellToChildren c M)).flatten).dedup := by
  unfold union_e
  rw [h]
  simp [hmM]

theorem intersection_e_eq {a b : List Feature} {ma Ma mb Mb : Nat}
    (ha : resRange a = some (ma, Ma)) (hb : resRange b = some (mb, Mb)) :
    intersection_e a b =
      if Mb ≤ Ma then interCore (min ma mb) (max Ma Mb) a b
      else interCore (min ma mb) (max Ma Mb) b a := by
  unfold intersection_e
  rw [ha, hb]

theorem resRange_ne_nil {s : List Feature} {p : Nat × Nat}
    (h : resRange s = some p) : s ≠ [] := by
  intro he
  subst he
  simp [resRange] at h

theorem interCore_uniform_mem {r : Nat} {fine coarse : List Feature}
    (hres : ∀ f ∈ fine, f.res = r)
    (hlenf : ∀ f ∈ fine, ∀ c ∈ f.cells, c.path.length = r)
    (hlenc : ∀ f ∈ coarse, ∀ c ∈ f.cells, c.path.length = r) (c : Cell) :
    c ∈ interCore r r fine coarse ↔ c ∈ allCells fine ∧ c ∈ allCells coarse := by
  have hmap : (allCells coarse).map (fun x => cellToParent x r) = allCells coarse := by
    have hid : ∀ x ∈ allCells coarse, cellToParent x r = x := by
      intro x hx
      obtain ⟨f, hf, hxf⟩ := mem_allCells.mp hx
      exact cellToParent_of_le (le_of_eq (hlenc f hf x hxf))
    rw [List.map_congr_left hid, List.map_id']
  have hraw : ∀ pr : Cell × Nat,
      pr ∈ (fine.map (fun f => f.cells.map (fun c0 => (c0, f.res)))).flatten →
        pr.2 = r ∧ pr.1.path.length = r ∧ pr.1 ∈ allCells fine := by
    intro pr hpr
    rw [List.mem_flatten] at hpr
    obtain ⟨l, hl, hprl⟩ := hpr
    rw [List.mem_map] at hl
    obtain ⟨f, hf, rfl⟩ := hl
    rw [List.mem_map] at hprl
    obtain ⟨c0, hc0, rfl⟩ := hprl
    exact ⟨hres f hf, hlenf f hf c0 hc0, mem_allCells.mpr ⟨f, hf, hc0⟩⟩
  simp only [interCore, hmap]
  rw [List.mem_dedup, List.mem_append]
  have hfilter_none :
      (((fine.map (fun f => f.cells.map (fun c0 => (c0, f.res)))).flatten).filter
        (fun p => decide (cellToParent p.1 r ∈ (allCells coarse).dedup))).filter
        (fun p => decide (p.2 < r)) = [] := by
    rw [List.filter_eq_nil_iff]
    intro pr hpr
    have h2 := (hraw pr (List.mem_filter.mp hpr).1).1
    simp [h2]
  rw [hfilter_none]
  simp only [List.map_nil, List.flatten_nil, List.not_mem_nil, or_false]
  constructor
  · intro hc
    rw [List.mem_map] at hc
    obtain ⟨pr, hpr, rfl⟩ := hc
    rw [List.mem_filter] at hpr
    obtain ⟨hpr2, hpreq⟩ := hpr
    rw [List.mem_filter] at hpr2
    obtain ⟨hprFL, hP⟩ := hpr2
    have h2 := hraw pr hprFL
    have hid : cellToParent pr.1 r = pr.1 := cellToParent_of_le (le_of_eq h2.2.1)
    refine ⟨h2.2.2, ?_⟩
    have hPc := of_decide_eq_true hP
    rw [hid, List.mem_dedup] at hPc
    exact hPc
  · rintro ⟨hf, hc⟩
    rw [mem_allCells] at hf
    obtain ⟨f, hff, hcf⟩ := hf
    rw [List.mem_map]
    refine ⟨(c, f.res), ?_, rfl⟩
    rw [List.mem_filter]
    refine ⟨?_, decide_eq_true (hres f hff)⟩
    rw [List.mem_filter]
    constructor
    · rw [List.mem_flatten]
      exact ⟨f.cells.map (fun c0 => (c0, f.res)),
        List.mem_map.mpr ⟨f, hff, rfl⟩, List.mem_map.mpr ⟨c, hcf, rfl⟩⟩
    · have hid : cellToParent c r = c := cellToParent_of_le (le_of_eq (hlenf f hff c hcf))
      exact decide_eq_true (by rw [hid, List.mem_dedup]; exact hc)

/-! ## Claim C1: sentinel versus correction ordering in the planner -/

/-- C1, counterexample.  With a polyfill that returns no cells at any
resolution and an area that makes the table estimate 5 (below
`max_resolution = 12`), validation finds zero cells, yet
`calculate_optimal_resolution` returns `6` — the correction branch fires on a
zero validation count — instead of the `None` sentinel the claim requires. -/
theorem C1_planner_zero_cells_counterexample :
    plannerCount exK0 exG0 10 5 12 = 0 ∧
    calculateOptimalResolution exK0 exG0 10 5 12 = some 6 := by
  refine ⟨exK0_plannerCount, ?_⟩
  unfold calculateOptimalResolution
  rw [exK0_plannerCount, exK0_plannerEst]
  norm_num

/-- C1, amended: the `None` sentinel is returned iff validation found zero
cells AND the estimate is already at `max_resolution` (a zero count below
`max_resolution` triggers the correction branch instead, because the
correction test precedes the zero-cell test); the single-step correction
`est + 1` is returned iff the validation count is below target and
`est < max_resolution` — including when that count is zero. -/
theorem C1_planner_sentinel_amended :
    ∀ (k : H3Kernel) (g : PolyInput) (T rmin rmax : Nat), 0 < T →
    (calculateOptimalResolution k g T rmin rmax = none ↔
      (plannerCount k g T rmin rmax = 0 ∧ rmax ≤ plannerEst k g T rmin rmax)) ∧
    (calculateOptimalResolution k g T rmin rmax = some (plannerEst k g T rmin rmax + 1) ↔
      (plannerCount k g T rmin rmax < T ∧ plannerEst k g T rmin rmax < rmax)) := by
  intro k g T rmin rmax hT
  unfold calculateOptimalResolution
  split_ifs with h1 h2 <;>
    constructor <;>
    simp only [Option.some.injEq, reduceCtorEq, false_iff, true_iff, iff_true, iff_false] <;>
    omega

/-- C1, witness for the amended theorem at a concrete planner input. -/
theorem C1_planner_sentinel_amended_witness :
    0 < 10 ∧
    ((calculateOptimalResolution exK0 exG0 10 5 12 = none ↔
      (plannerCount exK0 exG0 10 5 12 = 0 ∧ 12 ≤ plannerEst exK0 exG0 10 5 12)) ∧
    (calculateOptimalResolution exK0 exG0 10 5 12 = some (plannerEst exK0 exG0 10 5 12 + 1) ↔
      (plannerCount exK0 exG0 10 5 12 < 10 ∧ plannerEst exK0 exG0 10 5 12 < 12))) :=
  ⟨by norm_num, C1_planner_sentinel_amended exK0 exG0 10 5 12 (by norm_num)⟩

/-! ## Claim C7: planner monotone in the target cell count -/

/-- C7: for a fixed kernel (geometry, library, containment mode) and fixed
resolution bounds, the planner's returned resolution is monotone in the
target cell count whenever both calls return a resolution. -/
theorem C7_planner_monotone_in_target :
    ∀ (k : H3Kernel) (g : PolyInput) (rmin rmax T1 T2 r1 r2 : Nat),
    0 < T1 → T1 ≤ T2 → rmin ≤ rmax →
    calculateOptimalResolution k g T1 rmin rmax = some r1 →
    calculateOptimalResolution k g T2 rmin rmax = some r2 →
    r1 ≤ r2 := by
  intro k g rmin rmax T1 T2 r1 r2 hT h12 hmm h1 h2
  have hA : (0 : ℚ) ≤ geodesicAreaM2 k g := abs_nonneg _
  have he : plannerEst k g T1 rmin rmax ≤ plannerEst k g T2 rmin rmax :=
    estimateResolutionFromArea_mono hA hT h12 hmm
  unfold calculateOptimalResolution plannerCount at h1 h2
  by_cases hee : plannerEst k g T1 rmin rmax = plannerEst k g T2 rmin rmax
  · rw [← hee] at h2
    split_ifs at h1 h2 <;>
      simp only [Option.some.injEq, reduceCtorEq] at h1 h2 <;>
      omega
  · have hlt : plannerEst k g T1 rmin rmax < plannerEst k g T2 rmin rmax :=
      lt_of_le_of_ne he hee
    split_ifs at h1 h2 <;>
      simp only [Option.some.injEq, reduceCtorEq] at h1 h2 <;>
      omega

/-- C7, witness at a concrete kernel where both calls return resolution 5. -/
theorem C7_planner_monotone_in_target_witness :
    0 < 1 ∧ 1 ≤ 2 ∧ 5 ≤ 12 ∧
    calculateOptimalResolution exK1 exG0 1 5 12 = some 5 ∧
    calculateOptimalResolution exK1 exG0 2 5 12 = some 5 ∧
    (5 : Nat) ≤ 5 := by
  refine ⟨by norm_num, by norm_num, by norm_num, exK1_calcOpt1, exK1_calcOpt2, ?_⟩
  exact C7_planner_monotone_in_target exK1 exG0 5 12 1 2 5 5 (by norm_num) (by norm_num)
    (by norm_num) exK1_calcOpt1 exK1_calcOpt2

/-! ## Claim C4: union composed with union -/

/-- C4, counterexample.  Applying `union` to the cell relation returned by
`union(S)` does not succeed: `_get_resolution_range` queries the
`h3_resolution` column, which the single-`cell`-column relation lacks, so the
inner call raises instead of returning `union(S)` again. -/
theorem C4_union_of_union_counterexample :
    (unionR (.featureTable exS0)).bind unionR = Except.error () := rfl

/-- C4, amended: `union(union(S))` always raises (the cell relation returned
by `union` has no `h3_resolution` column), for every selection, not just the
concrete one; however `union`'s output is already normalized, in the sense
that re-running the union normalization over its own output — viewing the
returned cells as a single feature row at `r_max(S)` — returns exactly the
same cell list. -/
theorem C4_union_idempotent_amended :
    ∀ s : List Feature,
    unionR (.cellColumn (union_e s)) = Except.error () ∧
    union_e [⟨rmaxD s, union_e s⟩] = union_e s := by
  intro s
  refine ⟨rfl, ?_⟩
  rw [union_e_single, (union_e_nodup s).dedup]

/-! ## Claim C9: ephemeral-view discipline of the engine -/

/-- C9, counterexample.  `union` on a relation argument registers the
ephemeral view for it and returns without unregistering: starting from an
empty registry, the registry after the call still holds the view. -/
theorem C9_union_leaves_view_counterexample :
    (unionS [] (FSArg.rel 0 []) false []).2 = [0] ∧ ([0] : ViewState) ≠ [] :=
  ⟨rfl, by decide⟩

/-- C9, amended: `intersects`, `within`, `contains` and `area` unregister the
views they register on every exit path (`try`/`finally`, `qf` models an inner
exception), so the registry is restored; but `intersection` and `union` never
unregister — they leave the views of their relation arguments registered.
Hypotheses: the argument views are not already registered and the two
arguments are distinct relations (Python ids are unique among live objects). -/
theorem C9_view_discipline_amended :
    ∀ (cellArea : Cell → ℚ) (features : List Feature) (a b : FSArg) (qf : Bool)
      (st : ViewState),
    (∀ i ∈ argIds a, i ∉ st) → (∀ i ∈ argIds b, i ∉ st) →
    (∀ i ∈ argIds a, i ∉ argIds b) →
    (intersectsS features a b qf st).2 = st ∧
    (withinS features a b qf st).2 = st ∧
    (containsS features a b qf st).2 = st ∧
    (areaS cellArea features a qf st).2 = st ∧
    (unionS features a qf st).2 = registerArg st a ∧
    (intersectionS features a b qf st).2 = registerArg (registerArg st a) b := by
  intro cellArea features a b qf st ha hb hab
  have hba : ∀ i ∈ argIds b, i ∉ argIds a := by
    intro i hib hia
    exact hab i hia hib
  exact ⟨cleanup_register2 st a b ha hb hab,
    cleanup_register2 st a b ha hb hab,
    cleanup_register2 st b a hb ha hba,
    cleanup_register st a ha,
    rfl, rfl⟩

/-- C9, witness for the amended theorem on two concrete relation arguments. -/
theorem C9_view_discipline_amended_witness :
    (intersectsS [] (FSArg.rel 0 []) (FSArg.rel 1 []) false []).2 = [] ∧
    (withinS [] (FSArg.rel 0 []) (FSArg.rel 1 []) false []).2 = [] ∧
    (containsS [] (FSArg.rel 0 []) (FSArg.rel 1 []) false []).2 = [] ∧
    (areaS (fun _ => 0) [] (FSArg.rel 0 []) false []).2 = [] ∧
    (unionS [] (FSArg.rel 0 []) false []).2 = registerArg [] (FSArg.rel 0 []) ∧
    (intersectionS [] (FSArg.rel 0 []) (FSArg.rel 1 []) false []).2 =
      registerArg (registerArg [] (FSArg.rel 0 [])) (FSArg.rel 1 []) :=
  C9_view_discipline_amended (fun _ => 0) [] (FSArg.rel 0 []) (FSArg.rel 1 []) false []
    (by decide) (by decide) (by decide)

/-! ## Claim C6: contains is within with swapped arguments -/

/-- C6: `contains(A, B)` returns exactly `within(B, A)`, both in the query
engine (where `contains` literally delegates to `within(b, a)`) and in the
hierarchical predicate library (where `contains` recomputes
`norm_b ⊆ norm_a` after normalizing `(A, B)`, which agrees with `within(B, A)`
in value and in raising behaviour because normalization commutes with
swapping its arguments). -/
theorem C6_contains_within_duality :
    (∀ a b : List Feature, contains_e a b = within_e b a) ∧
    (∀ a b : List H3Id, pContains a b = pWithin b a) := by
  refine ⟨fun a b => rfl, fun a b => ?_⟩
  unfold pContains pWithin
  rw [normalizeToCoarser_swap a b]
  cases hn : normalizeToCoarser a b with
  | error e => rfl
  | ok p => obtain ⟨na, nb⟩ := p; rfl

/-! ## Claim C2: predicates on empty inputs -/

/-- C2, counterexample.  The library `within` with an empty first set returns
`True` (the empty set is a subset of everything), and `contains` with an
empty second set returns `True` — not the `False` the claim requires for
every predicate on any empty input. -/
theorem C2_empty_input_counterexample :
    pWithin [] [H3Id.ok ⟨0, []⟩] = .ok true ∧
    pContains [H3Id.ok ⟨0, []⟩] [] = .ok true :=
  ⟨rfl, rfl⟩

/-- C2, amended: no predicate raises on empty input.  All engine-level
predicates return `False` whenever either selection is empty; the library
`intersects` and `touches` return `False` whenever either cell set is empty;
but the library `within` returns `True` when its first set is empty (and
`False` when only its second is), and the library `contains` returns `True`
when its second set is empty (and `False` when only its first is). -/
theorem C2_empty_input_amended :
    ∀ (gd : Cell → List Cell) (s : List Feature) (a b : List H3Id),
    (intersects_e [] s = false ∧ intersects_e s [] = false ∧
      within_e [] s = false ∧ within_e s [] = false ∧
      contains_e [] s = false ∧ contains_e s [] = false) ∧
    (a = [] ∨ b = [] → pIntersects a b = .ok false ∧ pTouches gd a b = .ok false) ∧
    (pWithin [] b = .ok true ∧ (a ≠ [] → pWithin a [] = .ok false)) ∧
    (pContains a [] = .ok true ∧ (b ≠ [] → pContains [] b = .ok false)) := by
  intro gd s a b
  have hnil_l : ∀ u : List Feature, intersects_e [] u = false := fun u => by
    unfold intersects_e
    cases h : resRange u with
    | none => rfl
    | some v => obtain ⟨mb, Mb⟩ := v; rfl
  have hnil_r : ∀ u : List Feature, intersects_e u [] = false := fun u => by
    unfold intersects_e
    cases h : resRange u with
    | none => rfl
    | some v => obtain ⟨ma, Ma⟩ := v; rfl
  have hwnil_l : ∀ u : List Feature, within_e [] u = false := fun u => by
    unfold within_e
    cases h : resRange u with
    | none => rfl
    | some v => obtain ⟨mb, Mb⟩ := v; rfl
  have hwnil_r : ∀ u : List Feature, within_e u [] = false := fun u => by
    unfold within_e
    cases h : resRange u with
    | none => rfl
    | some v => obtain ⟨ma, Ma⟩ := v; rfl
  refine ⟨⟨hnil_l s, hnil_r s, hwnil_l s, hwnil_r s, hwnil_r s, hwnil_l s⟩, ?_, ?_, ?_⟩
  · rintro (he | he) <;> subst he
    · cases b with
      | nil => exact ⟨rfl, rfl⟩
      | cons y bs => exact ⟨rfl, rfl⟩
    · cases a with
      | nil => exact ⟨rfl, rfl⟩
      | cons x as =>
        have hany : ∀ l : List H3Id, (l.any fun _ => false) = false := by
          intro l
          induction l with
          | nil => rfl
          | cons h t ih => simp [ih]
        constructor
        · simp [pIntersects, normalizeToCoarser]
        · simp [pTouches, pIntersects, normalizeToCoarser, hany]
  · constructor
    · cases b with
      | nil => rfl
      | cons y bs => rfl
    · intro hne
      cases a with
      | nil => exact absurd rfl hne
      | cons x as => simp [pWithin, normalizeToCoarser]
  · constructor
    · cases a with
      | nil => rfl
      | cons x as => rfl
    · intro hne
      cases b with
      | nil => exact absurd rfl hne
      | cons y bs => simp [pContains, normalizeToCoarser]

/-- C2, witness for the amended theorem at concrete inputs. -/
theorem C2_empty_input_amended_witness :
    (intersects_e [] [⟨0, [⟨0, []⟩]⟩] = false ∧
      intersects_e [⟨0, [⟨0, []⟩]⟩] [] = false ∧
      within_e [] [⟨0, [⟨0, []⟩]⟩] = false ∧
      within_e [⟨0, [⟨0, []⟩]⟩] [] = false ∧
      contains_e [] [⟨0, [⟨0, []⟩]⟩] = false ∧
      contains_e [⟨0, [⟨0, []⟩]⟩] [] = false) ∧
    (pIntersects [H3Id.ok ⟨0, []⟩] [] = .ok false ∧
      pTouches (fun _ => []) [H3Id.ok ⟨0, []⟩] [] = .ok false) ∧
    pWithin [H3Id.ok ⟨0, []⟩] [] = .ok false ∧
    pContains [] [H3Id.ok ⟨0, []⟩] = .ok false := by
  have h := C2_empty_input_amended (fun _ => []) [⟨0, [⟨0, []⟩]⟩]
    [H3Id.ok ⟨0, []⟩] [H3Id.ok ⟨0, []⟩]
  exact ⟨h.1,
    (C2_empty_input_amended (fun _ => []) [] [H3Id.ok ⟨0, []⟩] []).2.1 (Or.inr rfl),
    h.2.2.1.2 (by decide),
    h.2.2.2.2 (by decide)⟩

/-! ## Claim C8: invalid cells during normalization -/

/-- C8, counterexample.  A cell set whose representative is a valid
resolution-1 cell but which also holds an invalid identifier, compared
against a resolution-0 set: normalization must reparent the first set, the
`cell_to_parent` call hits the invalid identifier, and `within` raises
instead of skipping the cell and returning a boolean. -/
theorem C8_invalid_cell_raises_counterexample :
    pWithin [H3Id.ok ⟨0, [0]⟩, H3Id.bad 0] [H3Id.ok ⟨0, []⟩] = .error () := rfl

/-- C8, amended: the recovery is wholesale, not per cell.  When the sampled
representative of either set is invalid, the predicates skip normalization
entirely and return the raw-set comparison as a boolean (no exception); and
`touches` returns a boolean whenever normalization itself succeeds, because
its neighbour loop skips invalid cells individually — but an invalid
non-representative cell in a set that must be reparented makes the predicate
raise, as the counterexample shows. -/
theorem C8_invalid_cell_skip_amended :
    (∀ a b : List H3Id, headInvalid a = true ∨ headInvalid b = true →
      pIntersects a b = .ok (a.any (fun c => decide (c ∈ b))) ∧
      pWithin a b = .ok (a.all (fun c => decide (c ∈ b))) ∧
      pContains a b = .ok (b.all (fun c => decide (c ∈ a)))) ∧
    (∀ (gd : Cell → List Cell) (a b : List H3Id) (p : List H3Id × List H3Id),
      normalizeToCoarser a b = .ok p → ∃ r : Bool, pTouches gd a b = .ok r) := by
  constructor
  · intro a b h
    have hn := normalizeToCoarser_headInvalid h
    exact ⟨by simp [pIntersects, hn], by simp [pWithin, hn], by simp [pContains, hn]⟩
  · intro gd a b p hp
    obtain ⟨na, nb⟩ := p
    simp only [pTouches, pIntersects, hp]
    cases h2 : na.any (fun c => decide (c ∈ nb)) with
    | true => exact ⟨false, rfl⟩
    | false => exact ⟨_, rfl⟩

/-- C8, witness for the amended theorem at concrete inputs. -/
theorem C8_invalid_cell_skip_amended_witness :
    (headInvalid [H3Id.bad 5] = true ∨ headInvalid [H3Id.ok ⟨0, []⟩] = true) ∧
    (pIntersects [H3Id.bad 5] [H3Id.ok ⟨0, []⟩] =
      .ok (List.any [H3Id.bad 5] (fun c => decide (c ∈ [H3Id.ok ⟨0, []⟩]))) ∧
     pWithin [H3Id.bad 5] [H3Id.ok ⟨0, []⟩] =
      .ok (List.all [H3Id.bad 5] (fun c => decide (c ∈ [H3Id.ok ⟨0, []⟩]))) ∧
     pContains [H3Id.bad 5] [H3Id.ok ⟨0, []⟩] =
      .ok (List.all [H3Id.ok ⟨0, []⟩] (fun c => decide (c ∈ [H3Id.bad 5])))) ∧
    (∃ r : Bool,
      pTouches (fun _ => []) [H3Id.ok ⟨0, []⟩] [H3Id.ok ⟨1, []⟩] = .ok r) :=
  ⟨Or.inl rfl,
    C8_invalid_cell_skip_amended.1 [H3Id.bad 5] [H3Id.ok ⟨0, []⟩] (Or.inl rfl),
    C8_invalid_cell_skip_amended.2 (fun _ => []) [H3Id.ok ⟨0, []⟩] [H3Id.ok ⟨1, []⟩]
      ([H3Id.ok ⟨0, []⟩], [H3Id.ok ⟨1, []⟩]) rfl⟩

/-! ## Claim C3: intersection symmetry -/

/-- C3, counterexample.  With `A` holding a resolution-0 row (cell `exP0`)
plus a resolution-1 row descending from a different base cell, and `B`
holding one resolution-1 child of `exP0`: both sides have maximal resolution
1, so `intersection(A, B)` takes `A` as the fine side and expands `exP0` to
its seven children, while `intersection(B, A)` takes `B` as the fine side and
returns only `B`'s single cell.  The child `⟨0, [1]⟩` is in the first result
but not the second, so the two cell sets differ. -/
theorem C3_intersection_asymmetric_counterexample :
    (⟨0, [1]⟩ : Cell) ∈ intersection_e exA3 exB3 ∧
    (⟨0, [1]⟩ : Cell) ∉ intersection_e exB3 exA3 := by decide

/-- C3, amended: `intersection(A, B)` and `intersection(B, A)` agree as cell
sets when the two selections have distinct maximal resolutions (the
fine/coarse assignment then picks the same sides, so the computations
coincide), and when all features of both selections share one uniform
resolution carried by their cells (the computation degenerates to plain set
intersection).  When the maximal resolutions tie but the contents are
mixed-resolution, symmetry fails, as the counterexample shows. -/
theorem C3_intersection_symmetry_amended :
    ∀ (a b : List Feature),
    (rmaxD a ≠ rmaxD b ∨
      ∃ r, ∀ f ∈ a ++ b, f.res = r ∧ ∀ c ∈ f.cells, c.path.length = r) →
    ∀ c : Cell, c ∈ intersection_e a b ↔ c ∈ intersection_e b a := by
  intro a b h c
  cases ha : resRange a with
  | none =>
    have he : a = [] := resRange_eq_none.mp ha
    subst he
    cases hb : resRange b with
    | none =>
      have he2 : b = [] := resRange_eq_none.mp hb
      subst he2
      exact Iff.rfl
    | some q =>
      obtain ⟨mb, Mb⟩ := q
      simp [intersection_e, hb, resRange]
  | some p =>
    obtain ⟨ma, Ma⟩ := p
    cases hb : resRange b with
    | none =>
      have he2 : b = [] := resRange_eq_none.mp hb
      subst he2
      simp [intersection_e, ha, resRange]
    | some q =>
      obtain ⟨mb, Mb⟩ := q
      rw [intersection_e_eq ha hb, intersection_e_eq hb ha]
      by_cases hMM : Ma = Mb
      · rcases h with hne | ⟨r, hu⟩
        · exact absurd (by rw [rmaxD_of_range ha, rmaxD_of_range hb, hMM]) hne
        · have hua : ∀ f ∈ a, f.res = r := fun f hf =>
            (hu f (List.mem_append.mpr (Or.inl hf))).1
          have hub : ∀ f ∈ b, f.res = r := fun f hf =>
            (hu f (List.mem_append.mpr (Or.inr hf))).1
          have hla : ∀ f ∈ a, ∀ c0 ∈ f.cells, c0.path.length = r := fun f hf =>
            (hu f (List.mem_append.mpr (Or.inl hf))).2
          have hlb : ∀ f ∈ b, ∀ c0 ∈ f.cells, c0.path.length = r := fun f hf =>
            (hu f (List.mem_append.mpr (Or.inr hf))).2
          have hra : resRange a = some (r, r) := resRange_uniform (resRange_ne_nil ha) hua
          have hrb : resRange b = some (r, r) := resRange_uniform (resRange_ne_nil hb) hub
          rw [ha] at hra
          rw [hb] at hrb
          obtain ⟨hma, hMa⟩ : ma = r ∧ Ma = r := by
            injection hra with h2
            exact ⟨congrArg Prod.fst h2, congrArg Prod.snd h2⟩
          obtain ⟨hmb, hMb⟩ : mb = r ∧ Mb = r := by
            injection hrb with h2
            exact ⟨congrArg Prod.fst h2, congrArg Prod.snd h2⟩
          subst hma hMa hmb hMb
          simp only [le_refl, if_true, Nat.min_self, Nat.max_self]
          rw [interCore_uniform_mem hua hla hlb c, interCore_uniform_mem hub hlb hla c]
          exact and_comm
      · rcases Nat.lt_or_ge Ma Mb with hlt | hge
        · have h1 : ¬ Mb ≤ Ma := by omega
          have h2 : Ma ≤ Mb := by omega
          simp only [h1, h2, if_true, if_false]
          rw [Nat.min_comm mb ma, Nat.max_comm Mb Ma]
        · have hlt2 : Mb < Ma := by omega
          have h1 : Mb ≤ Ma := by omega
          have h2 : ¬ Ma ≤ Mb := by omega
          simp only [h1, h2, if_true, if_false]
          rw [Nat.min_comm mb ma, Nat.max_comm Mb Ma]

/-- C3, witness for the amended theorem: two uniform resolution-0
selections. -/
theorem C3_intersection_symmetry_amended_witness :
    (rmaxD [⟨0, [⟨0, []⟩]⟩] ≠ rmaxD [⟨0, [⟨1, []⟩]⟩] ∨
      ∃ r, ∀ f ∈ ([⟨0, [⟨0, []⟩]⟩] ++ [⟨0, [⟨1, []⟩]⟩] : List Feature),
        f.res = r ∧ ∀ c ∈ f.cells, c.path.length = r) ∧
    ((⟨0, []⟩ : Cell) ∈ intersection_e [⟨0, [⟨0, []⟩]⟩] [⟨0, [⟨1, []⟩]⟩] ↔
      (⟨0, []⟩ : Cell) ∈ intersection_e [⟨0, [⟨1, []⟩]⟩] [⟨0, [⟨0, []⟩]⟩]) :=
  ⟨Or.inr ⟨0, by decide⟩,
    C3_intersection_symmetry_amended [⟨0, [⟨0, []⟩]⟩] [⟨0, [⟨1, []⟩]⟩]
      (Or.inr ⟨0, by decide⟩) ⟨0, []⟩⟩

/-! ## Claim C5: union semantics -/

/-- C5: for every selection, `union` returns a duplicate-free cell list whose
members are exactly the cells of the rows at `r_max(S)` taken as-is together
with the `r_max(S)`-children of cells from coarser rows; and on the concrete
mixed-resolution selection of the spec's scenario 5 — one feature `{c6}` at
resolution 6 and one feature with two resolution-8 descendants of `c6` — the
result is a permutation of the 49 resolution-8 descendants of `c6`, each
appearing exactly once. -/
theorem C5_union_normalization :
    (∀ (S : List Feature) (c : Cell),
      (union_e S).Nodup ∧
      (c ∈ union_e S ↔
        (∃ f ∈ S, f.res = rmaxD S ∧ c ∈ f.cells) ∨
        (∃ f ∈ S, f.res < rmaxD S ∧ ∃ p ∈ f.cells, c ∈ cellToChildren p (rmaxD S)))) ∧
    (List.Perm (union_e exS49) (cellToChildren exC6 8) ∧
      (cellToChildren exC6 8).length = 49) := by
  constructor
  · intro S c
    refine ⟨union_e_nodup S, ?_⟩
    cases h : resRange S with
    | none =>
      have hS : S = [] := resRange_eq_none.mp h
      subst hS
      simp [union_e, resRange]
    | some p =>
      obtain ⟨m, M⟩ := p
      rw [rmaxD_of_range h]
      by_cases hmM : m = M
      · subst hmM
        rw [union_e_of_range_same h, List.mem_dedup, mem_allCells]
        have hb := resRange_bounds h
        constructor
        · rintro ⟨f, hf, hcf⟩
          exact Or.inl ⟨f, hf, le_antisymm (hb f hf).2 (hb f hf).1, hcf⟩
        · rintro (⟨f, hf, _, hcf⟩ | ⟨f, hf, hres, _⟩)
          · exact ⟨f, hf, hcf⟩
          · exact absurd hres (by have := hb f hf; omega)
      · rw [union_e_of_range_mixed h hmM, List.mem_dedup, List.mem_append]
        constructor
        · rintro (hc | hc)
          · rw [mem_allCells] at hc
            obtain ⟨f, hf, hcf⟩ := hc
            rw [List.mem_filter] at hf
            exact Or.inl ⟨f, hf.1, by simpa using hf.2, hcf⟩
          · rw [List.mem_flatten] at hc
            obtain ⟨l, hl, hcl⟩ := hc
            rw [List.mem_map] at hl
            obtain ⟨q, hq, rfl⟩ := hl
            rw [mem_allCells] at hq
            obtain ⟨f, hf, hqf⟩ := hq
            rw [List.mem_filter] at hf
            exact Or.inr ⟨f, hf.1, by simpa using hf.2, q, hqf, hcl⟩
        · rintro (⟨f, hf, hres, hcf⟩ | ⟨f, hf, hres, q, hqf, hcq⟩)
          · refine Or.inl ?_
            rw [mem_allCells]
            exact ⟨f, List.mem_filter.mpr ⟨hf, by simpa using hres⟩, hcf⟩
          · refine Or.inr ?_
            rw [List.mem_flatten]
            refine ⟨cellToChildren q M, List.mem_map.mpr ⟨q, ?_, rfl⟩, hcq⟩
            rw [mem_allCells]
            exact ⟨f, List.mem_filter.mpr ⟨hf, by simpa using hres⟩, hqf⟩
  · decide

/-! ## Claim C10: non-polygonal rows in adaptive batch conversion -/

/-- C10: in `convert_geodataframe_to_h3_adaptive`, every row whose geometry
is not a `Polygon` or `MultiPolygon` is encoded by `convert_geometry_to_h3`
at exactly `max_resolution`, and the resolution recorded for that row is
`max_resolution`; adaptive planning touches only polygonal rows. -/
theorem C10_nonpolygonal_rows_at_max_resolution :
    ∀ (k : H3Kernel) (gdf : List Geometry) (T rmin rmax i : Nat) (g : Geometry),
    gdf[i]? = some g → g.isPolygonal = false →
    (convertGeodataframeToH3Adaptive k gdf T rmin rmax).2[i]? = some rmax ∧
    (convertGeodataframeToH3Adaptive k gdf T rmin rmax).1[i]? =
      some (convertGeometryToH3 k g rmax) := by
  intro k gdf T rmin rmax i g hg hpoly
  unfold convertGeodataframeToH3Adaptive
  simp only [List.getElem?_map, hg, Option.map_some']
  cases g with
  | polygon p => simp [Geometry.isPolygonal] at hpoly
  | multiPolygon ps => simp [Geometry.isPolygonal] at hpoly
  | point lng lat => exact ⟨rfl, rfl⟩
  | lineString cs => exact ⟨rfl, rfl⟩
  | multiPoint ps => exact ⟨rfl, rfl⟩
  | multiLineString ls => exact ⟨rfl, rfl⟩

/-- C10, witness on a one-row geodataframe holding a point. -/
theorem C10_nonpolygonal_rows_at_max_resolution_witness :
    ([Geometry.point (41 / 5) (234 / 5)] : List Geometry)[0]? =
      some (Geometry.point (41 / 5) (234 / 5)) ∧
    (Geometry.point (41 / 5) (234 / 5)).isPolygonal = false ∧
    (convertGeodataframeToH3Adaptive exK0 [Geometry.point (41 / 5) (234 / 5)]
      10 5 12).2[0]? = some 12 ∧
    (convertGeodataframeToH3Adaptive exK0 [Geometry.point (41 / 5) (234 / 5)]
      10 5 12).1[0]? =
      some (convertGeometryToH3 exK0 (Geometry.point (41 / 5) (234 / 5)) 12) := by
  have h := C10_nonpolygonal_rows_at_max_resolution exK0
    [Geometry.point (41 / 5) (234 / 5)] 10 5 12 0
    (Geometry.point (41 / 5) (234 / 5)) rfl rfl
  exact ⟨rfl, rfl, h.1, h.2⟩

end H3Spec
